import Mathlib

/-!
Verification of the Automated-rPvZH-Garden fusion/garden/trade/sales core.

Shallow embedding of:
  * `src/arg/helpers/fusion_helper.py`  (FusionHelper: deconstruct_plant,
    find_fusion_match, get_user_whole_assets_with_source,
    get_valid_crafting_components, find_crafting_plan)
  * `src/arg/helpers/garden_helper.py`  (update_seedling_progress, plant_seedling)
  * `src/arg/helpers/sales_helper.py`   (process_sales)
  * `src/arg/helpers/trade_helper.py`   (execute_plant_trade)

Modelling conventions:
  * Python dicts with fixed key sets become structures; dict lookup built from a
    list of entries is last-entry-wins (`dictGet` / lookup folds), mirroring dict
    comprehension semantics.
  * Human-readable error / message strings become inductive types whose
    constructors record the interpolated values; the exact f-string template is
    noted at each constructor.
  * Python floats (seedling progress, mastery bonus) are modelled as exact
    rationals.
  * `deconstruct_plant` recurses unboundedly in Python; its visited-path guard
    bounds the recursion depth by the number of fusion ids, so it is embedded
    with structural fuel `all_fusions.length + 1`.  `deconstructF_fuel_irrel`
    proves any fuel above the bound gives the same result, so the fuel choice
    is semantically invisible.
-/

namespace ARG

/-- A fusion recipe definition (`fusions_list` entry).  `recipe = none` models a
dict with no `"recipe"` key; `some []` models an explicitly empty recipe. -/
structure Fusion where
  id : String
  name : String
  type : String
  recipe : Option (List String)
deriving DecidableEq, Repr

/-- The three fields `deconstruct_plant` reads from its `plant_data` dict:
`plant_data.get("id")`, `plant_data.get("name", plant_id)`, `plant_data.get("type")`. -/
structure PlantData where
  id : String
  name : String
  type : String
deriving DecidableEq, Repr

/-- An asset dict as produced by `get_user_whole_assets_with_source`:
the plant fields plus the `source` / `index` tags. -/
structure Asset where
  id : String
  name : String
  type : String
  source : String
  index : Int
deriving DecidableEq, Repr

/-- A garden / storage slot: `None`, a serialized `PlantedSeedling`
(`{id, progress, notification_channel_id, type: "seedling"}`), or a serialized
`PlantedPlant` (`{id, name, type}`).  Progress is an exact rational. -/
inductive Slot where
  | empty : Slot
  | seedling (id : String) (progress : ℚ) (channel : Option Int) : Slot
  | plant (id : String) (name : String) (type : String) : Slot
deriving DecidableEq, Repr

/-- Error strings produced by `deconstruct_plant`, by constructor:
  * `infiniteRecursion n` = `f"Infinite recursion detected involving '{n}'."`
  * `recipeMissing n` = `f"Recipe for fusion '{n}' is missing."`
  * `unknownComponent p c` =
    `f"Recipe for '{p}' contains unknown component: '{c}'."`
  * `outOfFuel` is a model artifact for exhausted fuel; it is unreachable at
    the fuel used by `deconstruct_plant` (see `deconstructF_fuel_irrel`). -/
inductive Err where
  | infiniteRecursion (name : String) : Err
  | recipeMissing (name : String) : Err
  | unknownComponent (parent : String) (comp : String) : Err
  | outOfFuel : Err
deriving DecidableEq, Repr

/-- Python `dict(entries).get(k, d)`: building a dict from an entry list and looking a
key up; later entries overwrite earlier ones. -/
def dictGet {α : Type} (entries : List (String × α)) (k : String) (d : α) : α :=
  entries.foldl (fun acc p => if p.1 = k then p.2 else acc) d

/-- The catalog state of `FusionHelper.__init__`: the fusion list,
`materials_data` (id → display name) and the base-plant names from
`plant_helper.base_plants` (only their `name` fields are read by the
embedded operations). -/
structure FusionHelper where
  all_fusions : List Fusion
  all_materials : List (String × String)
  base_plant_names : List String
deriving DecidableEq, Repr

/-- Embeds `self.all_materials_by_name = set(materials_data.values())`. -/
def FusionHelper.materialNames (H : FusionHelper) : List String :=
  H.all_materials.map Prod.snd

/-- Embeds `self.all_fusions_by_id.get(i)` — dict comprehension keyed on `f['id']`,
last entry wins. -/
def FusionHelper.fusionById (H : FusionHelper) (i : String) : Option Fusion :=
  H.all_fusions.foldl (fun acc f => if f.id = i then some f else acc) none

/-- Embeds `self.all_fusions_by_name.get(n)` — dict comprehension keyed on `f['name']`,
last entry wins. -/
def FusionHelper.fusionByName (H : FusionHelper) (n : String) : Option Fusion :=
  H.all_fusions.foldl (fun acc f => if f.name = n then some f else acc) none

/-- Embeds `self.all_materials.get(i)` (material id → display name). -/
def FusionHelper.materialName (H : FusionHelper) (i : String) : Option String :=
  H.all_materials.foldl (fun acc p => if p.1 = i then some p.2 else acc) none

/-- The ids of all catalog fusions. -/
def FusionHelper.fusionIds (H : FusionHelper) : List String :=
  H.all_fusions.map Fusion.id

/-- Number of catalog fusion ids not yet on the visited path — the decreasing
measure of `deconstruct_plant`'s recursion. -/
def newIds (H : FusionHelper) (path : List String) : Nat :=
  (H.fusionIds.filter (fun i => decide (i ∉ path))).length

/-- The per-component body of `deconstruct_plant`'s recipe loop (lines 94-105):
base-plant names and material names pass through, nested fusion names recurse
(`recur`), anything else is an unknown-component error. -/
def deconstructComp (recur : Fusion → List String × List Err) (H : FusionHelper)
    (parent : String) (c : String) : List String × List Err :=
  if c ∈ H.base_plant_names then ([c], [])
  else if c ∈ H.materialNames then ([c], [])
  else
    match H.fusionByName c with
    | some g => recur g
    | none => ([], [Err.unknownComponent parent c])

/-- Fuelled embedding of `FusionHelper.deconstruct_plant(plant_data, path)`.
Each recursive call receives `path.copy()` after the parent added its own id,
so sibling branches share exactly `plant_id :: path` — modelled by passing
`r.id :: path` to every component. -/
def deconstructF : Nat → FusionHelper → PlantData → List String →
    List String × List Err
  | 0, _, _, _ => ([], [Err.outOfFuel])
  | fuel + 1, H, r, path =>
    if r.id ∈ path then ([], [Err.infiniteRecursion r.name])
    else if r.type = "material" ∨ r.name ∈ H.materialNames then ([r.name], [])
    else if r.type = "base_plant" then ([r.name], [])
    else
      match H.fusionById r.id with
      | none => ([], [Err.recipeMissing r.name])
      | some f =>
        match f.recipe with
        | none => ([], [Err.recipeMissing r.name])
        | some rec =>
          let rs := rec.map (deconstructComp
            (fun g => deconstructF fuel H ⟨g.id, g.name, g.type⟩ (r.id :: path))
            H r.name)
          ((rs.map Prod.fst).flatten, (rs.map Prod.snd).flatten)

/-- Embeds `deconstruct_plant(plant_data)` with the default empty path; fuel
`all_fusions.length + 1` is always sufficient (`deconstructF_fuel_irrel`). -/
def deconstruct_plant (H : FusionHelper) (r : PlantData) :
    List String × List Err :=
  deconstructF (H.all_fusions.length + 1) H r []

/-- The recipe multiset of a fusion: `Counter(fusion_def.get("recipe", []))`. -/
def Fusion.recipeMS (f : Fusion) : Multiset String :=
  (f.recipe.getD [] : List String)

/-- Embeds `FusionHelper.find_fusion_match(components)`: the first catalog fusion whose
non-empty recipe Counter equals the input component Counter. -/
def find_fusion_match (H : FusionHelper) (components : List String) :
    Option Fusion :=
  H.all_fusions.find?
    (fun f => decide (f.recipeMS ≠ 0 ∧ f.recipeMS = (components : Multiset String)))

/-- Embeds `FusionHelper.get_user_whole_assets_with_source(user_data)`: garden plants
(non-seedling dicts) tagged `garden`, storage dicts tagged `storage` (a stored
seedling dict has no `"name"` key, and every downstream read defaults the name
to the id, so its asset carries `name = id`), then one `material` pseudo-asset
per inventory key known to `all_materials`, index `-1`.  The inventory is the
dict's entry list; iteration yields its keys in order. -/
def get_user_whole_assets_with_source (H : FusionHelper) (garden : List Slot)
    (storage : List Slot) (inventory : List (String × Nat)) : List Asset :=
  (garden.enum.filterMap (fun p =>
    match p.2 with
    | Slot.plant pid pname pty => some ⟨pid, pname, pty, "garden", (p.1 : Int)⟩
    | _ => none)) ++
  (storage.enum.filterMap (fun p =>
    match p.2 with
    | Slot.plant pid pname pty => some ⟨pid, pname, pty, "storage", (p.1 : Int)⟩
    | Slot.seedling sid _ _ => some ⟨sid, sid, "seedling", "storage", (p.1 : Int)⟩
    | Slot.empty => none)) ++
  (inventory.filterMap (fun kv =>
    match H.materialName kv.1 with
    | some n => some ⟨kv.1, n, "material", "inventory", -1⟩
    | none => none))

/-- Embeds `FusionHelper.get_valid_crafting_components(assets_list)`: keep materials,
base plants, and fusions whose catalog entry has a non-empty (truthy) recipe. -/
def get_valid_crafting_components (H : FusionHelper) (assets : List Asset) :
    List Asset :=
  assets.filter (fun a =>
    decide (a.type = "material") || decide (a.type = "base_plant") ||
      match H.fusionById a.id with
      | some f => decide (f.recipe.getD [] ≠ [])
      | none => false)

/-- The `plant_data` view of an asset dict (the keys `deconstruct_plant` reads). -/
def Asset.plantData (a : Asset) : PlantData := ⟨a.id, a.name, a.type⟩

/-- Size of an asset's deconstruction — the sort key
`len(self.deconstruct_plant(x)[0])` of `find_crafting_plan`. -/
def decSize (H : FusionHelper) (a : Asset) : Nat :=
  (deconstruct_plant H a.plantData).1.length

/-- Stable insertion (largest key first) used to model Python's stable
`sorted(..., reverse=True)`. -/
def insertDesc (H : FusionHelper) (a : Asset) : List Asset → List Asset
  | [] => [a]
  | b :: bs =>
    if decSize H b ≤ decSize H a then a :: b :: bs else b :: insertDesc H a bs

/-- Embeds `sorted(effective_assets, key=lambda x: len(deconstruct_plant(x)[0]), reverse=True)`:
stable, descending by deconstruction size. -/
def sortDesc (H : FusionHelper) : List Asset → List Asset
  | [] => []
  | a :: rest => insertDesc H a (sortDesc H rest)

/-- The greedy consumption loop of `find_crafting_plan` (lines 287-297): skip
assets whose deconstruction errors; consume an asset whenever its whole
deconstructed Counter fits inside `needed`. -/
def greedy (H : FusionHelper) : List Asset → Multiset String → List Asset →
    List Asset × Multiset String
  | [], needed, plan => (plan, needed)
  | a :: rest, needed, plan =>
    let dc := deconstruct_plant H a.plantData
    if dc.2 ≠ [] then greedy H rest needed plan
    else if (dc.1 : Multiset String) ≤ needed then
      greedy H rest (needed - (dc.1 : Multiset String)) (plan ++ [a])
    else greedy H rest needed plan

/-- The filtering, sorting and greedy pass of
`FusionHelper.find_crafting_plan` before the final null check. -/
def crafting_pass (H : FusionHelper) (recipe_counter : Multiset String)
    (user_assets : List Asset) (fusion_id_to_check : String) :
    List Asset × Multiset String :=
  let temp := if fusion_id_to_check ≠ "" then
      user_assets.filter (fun a => a.id ≠ fusion_id_to_check)
    else user_assets
  greedy H (sortDesc H (get_valid_crafting_components H temp)) recipe_counter []

/-- Embeds `FusionHelper.find_crafting_plan(recipe_counter, user_assets, fusion_id_to_check)`:
`(plan, Counter())` when everything was covered, else `(None, remaining_needed)`
(the model's `needed` never holds non-positive counts, so the positive-part
filter of line 299 is the identity). -/
def find_crafting_plan (H : FusionHelper) (recipe_counter : Multiset String)
    (user_assets : List Asset) (fusion_id_to_check : String) :
    Option (List Asset) × Multiset String :=
  let pr := crafting_pass H recipe_counter user_assets fusion_id_to_check
  if pr.2 = 0 then (some pr.1, 0) else (none, pr.2)

/-- The multiset union of the deconstructions of a list of assets. -/
def sumDec (H : FusionHelper) (l : List Asset) : Multiset String :=
  (l.map (fun a => ((deconstruct_plant H a.plantData).1 : Multiset String))).sum

/-- Embeds `GardenHelper.update_seedling_progress(user_id, plot_index_0based,
progress_increase)` acting on the cached profile's garden: in-range seedling
slots get `progress = min(progress + increase, 100.0)`; any other situation
leaves the garden unchanged (the profile is saved either way). -/
def update_seedling_progress (garden : List Slot) (plot_index_0based : Nat)
    (progress_increase : ℚ) : List Slot :=
  if h : plot_index_0based < garden.length then
    match garden.get ⟨plot_index_0based, h⟩ with
    | Slot.seedling sid p ch =>
      garden.set plot_index_0based
        (Slot.seedling sid (min (p + progress_increase) 100) ch)
    | _ => garden
  else garden

/-- Embeds `GardenHelper.plant_seedling(user_id, plot_index_0based, seedling_id,
channel_id)` acting on the garden: an in-range index is overwritten with a
fresh `PlantedSeedling(id=seedling_id, notification_channel_id=channel_id)`
(progress 0) regardless of the slot's contents; out of range, nothing changes.
The Python method returns `None` in every case. -/
def plant_seedling (garden : List Slot) (plot_index_0based : Nat)
    (seedling_id : String) (channel_id : Int) : List Slot :=
  if plot_index_0based < garden.length then
    garden.set plot_index_0based (Slot.seedling seedling_id 0 (some channel_id))
  else garden

/-- Per-slot human-readable sale outcomes (`sold_plants_details` entries):
  * `transcendSun n s` / `transcendTime n s` = the `tier∞` / `tier-∞`
    transcendence messages for plant `n` in plot `s`;
  * `sold n s y b` = the yield message for plant `n` in plot `s`, final price
    `y`, with `b` the presence of the `(Boosted by ...)` suffix. -/
inductive SaleDetail where
  | transcendSun (name : String) (slot : Int) : SaleDetail
  | transcendTime (name : String) (slot : Int) : SaleDetail
  | sold (name : String) (slot : Int) (yield : Int) (boosted : Bool) : SaleDetail
deriving DecidableEq, Repr

/-- Per-slot error messages (`error_messages` entries):
  * `invalidSlot s` = `f"Plot {s}: Invalid designation (must be 1-12)."`
  * `emptyOrSeedling s` = `f"Plot {s}: Is empty or contains a non-sellable seedling."`
  * `noValue s n` = `f"Plot {s}: Asset '{n}' has no market value."` -/
inductive SaleErr where
  | invalidSlot (slot : Int) : SaleErr
  | emptyOrSeedling (slot : Int) : SaleErr
  | noValue (slot : Int) (name : String) : SaleErr
deriving DecidableEq, Repr

/-- The `results` dict of `SalesHelper.process_sales`. -/
structure SalesResult where
  total_earnings : Int
  sold_plants_details : List SaleDetail
  error_messages : List SaleErr
  mastery_gained : Nat
  time_mastery_gained : Nat
  plots_to_clear : List Int
deriving DecidableEq, Repr

/-- The empty `results` accumulator. -/
def SalesResult.empty : SalesResult := ⟨0, [], [], 0, 0, []⟩

/-- Pointwise aggregation of two sales results (numbers add, lists append in
processing order). -/
def SalesResult.combine (r₁ r₂ : SalesResult) : SalesResult :=
  ⟨r₁.total_earnings + r₂.total_earnings,
   r₁.sold_plants_details ++ r₂.sold_plants_details,
   r₁.error_messages ++ r₂.error_messages,
   r₁.mastery_gained + r₂.mastery_gained,
   r₁.time_mastery_gained + r₂.time_mastery_gained,
   r₁.plots_to_clear ++ r₂.plots_to_clear⟩

/-- A result holding a single error message. -/
def SalesResult.err (e : SaleErr) : SalesResult := ⟨0, [], [e], 0, 0, []⟩

/-- One iteration of the `process_sales` loop for the 1-based slot number `s`:
range check against the hard-coded 1..12, empty/seedling check, the two
transcendence tiers, price lookup (`prices` is the `SALES_PRICES` dict), and
the mastery-boosted sale.  The Python float bonus `1 + 0.1 * mastery` is the
exact rational here, and `int(...)` on the non-negative product is `Int.floor`. -/
def slotOutcome (prices : List (String × Int)) (garden : List Slot)
    (mastery : Nat) (s : Int) : SalesResult :=
  if ¬(0 ≤ s - 1 ∧ s - 1 < 12) then SalesResult.err (SaleErr.invalidSlot s)
  else
    match garden.getD (s - 1).toNat Slot.empty with
    | Slot.empty => SalesResult.err (SaleErr.emptyOrSeedling s)
    | Slot.seedling _ _ _ => SalesResult.err (SaleErr.emptyOrSeedling s)
    | Slot.plant _ pname pty =>
      if pty = "tier∞" then
        ⟨0, [SaleDetail.transcendSun pname s], [], 1, 0, [s - 1]⟩
      else if pty = "tier-∞" then
        ⟨0, [SaleDetail.transcendTime pname s], [], 0, 1, [s - 1]⟩
      else
        let price := dictGet prices pty 0
        if price ≤ 0 then SalesResult.err (SaleErr.noValue s pname)
        else
          let bonus : ℚ := 1 + (mastery : ℚ) / 10
          let fin : Int := ⌊(price : ℚ) * bonus⌋
          ⟨fin, [SaleDetail.sold pname s fin (decide (1 < bonus))], [], 0, 0, [s - 1]⟩

/-- Left-to-right aggregation of per-slot outcomes. -/
def processSlots (prices : List (String × Int)) (garden : List Slot)
    (mastery : Nat) : List Int → SalesResult
  | [] => SalesResult.empty
  | s :: rest =>
    (slotOutcome prices garden mastery s).combine
      (processSlots prices garden mastery rest)

/-- First-occurrence deduplication, modelling the `set(slots_to_sell_from)`
iteration (CPython iterates small-int sets in an implementation-defined order;
every property proved below is order-insensitive). -/
def dedupFirst (seen : List Int) : List Int → List Int
  | [] => []
  | x :: xs =>
    if x ∈ seen then dedupFirst seen xs else x :: dedupFirst (x :: seen) xs

/-- Embeds `SalesHelper.process_sales(user_data, slots_to_sell_from)`: the garden and
`mastery` are the only profile fields read; the profile itself is never written
(all effects live in the returned result). -/
def process_sales (prices : List (String × Int)) (garden : List Slot)
    (mastery : Nat) (slots_to_sell_from : List Int) : SalesResult :=
  processSlots prices garden mastery (dedupFirst [] slots_to_sell_from)

/-- The plant snapshot stored in a pending trade (`plants_sender_receives_info`
entry): the recipient plot index and the proposed plant's id and name. -/
structure PlantSnapshot where
  r_slot_index : Nat
  plant_id : String
  plant_name : String
deriving DecidableEq, Repr

/-- The fields of the `trade_data` dict read by `execute_plant_trade`. -/
structure TradeData where
  sender_id : Int
  recipient_id : Int
  money_sender_gives : Int
  plants_info : List PlantSnapshot
deriving DecidableEq, Repr

/-- The profile fields `execute_plant_trade` reads from either party. -/
structure TUser where
  balance : Int
  garden : List Slot
deriving DecidableEq, Repr

/-- Result messages of `execute_plant_trade`, by constructor:
  * `notEnoughSun` = `"Trade failed: Sender no longer has enough sun."`
  * `notEnoughSpace` = `"Trade failed: Sender no longer has enough free garden space."`
  * `plantChanged s` = `f"Trade failed: The plant in recipient's plot {s} has changed."`
    (`s` is the 1-based plot number)
  * `success m ns` = the success message with money `m` and plant names `ns`
  * `noFreeSlot` is a model artifact for the `next(...)` generator finding no
    free plot; the preceding free-plot count guard makes it unreachable. -/
inductive TradeMsg where
  | notEnoughSun : TradeMsg
  | notEnoughSpace : TradeMsg
  | plantChanged (slot1 : Nat) : TradeMsg
  | success (money : Int) (names : List String) : TradeMsg
  | noFreeSlot : TradeMsg
deriving DecidableEq, Repr

/-- An entry of `changes["plant_moves"]`. -/
structure PlantMove where
  from_user_id : Int
  from_plot_idx : Nat
  to_user_id : Int
  to_plot_idx : Nat
  plant_data : Slot
deriving DecidableEq, Repr

/-- The `changes` plan returned on success (balance deltas and plant moves). -/
structure TradeChanges where
  balance_updates : List (Int × Int)
  plant_moves : List PlantMove
deriving DecidableEq, Repr

/-- The snapshot re-validation of lines 63-70: the slot has drifted when it no
longer holds a dict (`None` slot) or the dict's id differs from the
snapshotted plant id (a stored seedling dict also carries an `"id"` key). -/
def drifted (recipient : TUser) (s : PlantSnapshot) : Bool :=
  match recipient.garden.getD s.r_slot_index Slot.empty with
  | Slot.empty => true
  | Slot.seedling sid _ _ => decide (sid ≠ s.plant_id)
  | Slot.plant pid _ _ => decide (pid ≠ s.plant_id)

/-- Embeds `sum(1 for i, p in enumerate(sender garden) if p is None and (i+1) in
sender_unlocked_slots)`. -/
def freeSlots (sender : TUser) (unlocked : List Nat) : Nat :=
  sender.garden.enum.countP
    (fun p => decide (p.2 = Slot.empty ∧ (p.1 + 1) ∈ unlocked))

/-- The plant-move assignment loop (lines 80-96): each snapshot takes the first
still-empty unlocked plot of the sender's working garden copy. -/
def assignMoves (trade : TradeData) (recipient : TUser) (unlocked : List Nat) :
    List Slot → List PlantSnapshot → Option (List PlantMove)
  | _, [] => some []
  | temp, s :: rest =>
    match (List.range temp.length).find?
        (fun i => decide (temp.getD i Slot.empty = Slot.empty ∧ (i + 1) ∈ unlocked)) with
    | none => none
    | some i =>
      let plant := recipient.garden.getD s.r_slot_index Slot.empty
      match assignMoves trade recipient unlocked (temp.set i plant) rest with
      | none => none
      | some ms =>
        some (⟨trade.recipient_id, s.r_slot_index, trade.sender_id, i, plant⟩ :: ms)

/-- Embeds `TradeHelper.execute_plant_trade(trade_data, sender_data, recipient_data,
sender_unlocked_slots)`.  The Python function only reads its arguments (the
working garden is an explicit `list(...)` copy), so the embedding is a pure
function: no balance, garden or inventory of either party is part of the
result except through the returned change plan. -/
def execute_plant_trade (trade : TradeData) (sender recipient : TUser)
    (unlocked : List Nat) : Bool × TradeMsg × Option TradeChanges :=
  if sender.balance < trade.money_sender_gives then
    (false, TradeMsg.notEnoughSun, none)
  else if freeSlots sender unlocked < trade.plants_info.length then
    (false, TradeMsg.notEnoughSpace, none)
  else
    match trade.plants_info.find? (fun s => drifted recipient s) with
    | some s => (false, TradeMsg.plantChanged (s.r_slot_index + 1), none)
    | none =>
      match assignMoves trade recipient unlocked sender.garden trade.plants_info with
      | none => (false, TradeMsg.noFreeSlot, none)
      | some moves =>
        (true,
         TradeMsg.success trade.money_sender_gives
           (trade.plants_info.map PlantSnapshot.plant_name),
         some ⟨[(trade.sender_id, -trade.money_sender_gives),
                (trade.recipient_id, trade.money_sender_gives)], moves⟩)

/-! Lemmas about the greedy crafting pass -/

lemma greedy_nil (H : FusionHelper) (needed : Multiset String) (plan : List Asset) :
    greedy H [] needed plan = (plan, needed) := rfl

lemma greedy_cons (H : FusionHelper) (a : Asset) (rest : List Asset)
    (needed : Multiset String) (plan : List Asset) :
    greedy H (a :: rest) needed plan =
      (if (deconstruct_plant H a.plantData).2 ≠ [] then greedy H rest needed plan
       else if ((deconstruct_plant H a.plantData).1 : Multiset String) ≤ needed then
         greedy H rest (needed - ((deconstruct_plant H a.plantData).1 : Multiset String))
           (plan ++ [a])
       else greedy H rest needed plan) := rfl

lemma sumDec_nil (H : FusionHelper) : sumDec H [] = 0 := rfl

lemma sumDec_append (H : FusionHelper) (l₁ l₂ : List Asset) :
    sumDec H (l₁ ++ l₂) = sumDec H l₁ + sumDec H l₂ := by
  simp [sumDec]

lemma sumDec_singleton (H : FusionHelper) (a : Asset) :
    sumDec H [a] = ((deconstruct_plant H a.plantData).1 : Multiset String) := by
  simp [sumDec]

/-- Accounting invariant of the greedy loop: whatever it consumed plus whatever
is still needed always equals what was needed at entry (consumption subtracts
exactly, never below zero, thanks to the subset guard). -/
lemma greedy_acc (H : FusionHelper) (l : List Asset) (needed : Multiset String)
    (plan : List Asset) :
    sumDec H (greedy H l needed plan).1 + (greedy H l needed plan).2 =
      sumDec H plan + needed := by
  induction l generalizing needed plan with
  | nil => simp [greedy_nil]
  | cons a rest ih =>
    rw [greedy_cons]
    split_ifs with h1 h2
    · exact ih needed plan
    · rw [ih _ _, sumDec_append, sumDec_singleton, add_assoc,
        add_tsub_cancel_of_le h2]
    · exact ih needed plan

/-- Every asset of the produced plan came from the accumulator or the input. -/
lemma greedy_mem (H : FusionHelper) (l : List Asset) (needed : Multiset String)
    (plan : List Asset) (a : Asset) (ha : a ∈ (greedy H l needed plan).1) :
    a ∈ plan ∨ a ∈ l := by
  induction l generalizing needed plan with
  | nil => exact Or.inl ha
  | cons b rest ih =>
    rw [greedy_cons] at ha
    split_ifs at ha with h1 h2
    · rcases ih _ _ ha with h | h
      · exact Or.inl h
      · exact Or.inr (List.mem_cons_of_mem _ h)
    · rcases ih _ _ ha with h | h
      · rcases List.mem_append.mp h with h | h
        · exact Or.inl h
        · exact Or.inr (List.mem_cons.mpr (Or.inl (List.mem_singleton.mp h)))
      · exact Or.inr (List.mem_cons_of_mem _ h)
    · rcases ih _ _ ha with h | h
      · exact Or.inl h
      · exact Or.inr (List.mem_cons_of_mem _ h)

lemma mem_insertDesc (H : FusionHelper) (a b : Asset) (l : List Asset) :
    b ∈ insertDesc H a l ↔ b = a ∨ b ∈ l := by
  induction l with
  | nil => simp [insertDesc]
  | cons c cs ih =>
    by_cases h : decSize H c ≤ decSize H a
    · simp [insertDesc, h]
    · simp [insertDesc, h, ih]
      tauto

lemma mem_sortDesc (H : FusionHelper) (l : List Asset) (a : Asset) :
    a ∈ sortDesc H l ↔ a ∈ l := by
  induction l with
  | nil => simp [sortDesc]
  | cons b bs ih => simp [sortDesc, mem_insertDesc, ih]

lemma crafting_pass_eq (H : FusionHelper) (rc : Multiset String)
    (ua : List Asset) (fid : String) :
    crafting_pass H rc ua fid =
      greedy H (sortDesc H (get_valid_crafting_components H
        (if fid ≠ "" then ua.filter (fun a => a.id ≠ fid) else ua))) rc [] := rfl

/-- C1 — Plan soundness.  If `find_crafting_plan` returns a non-null plan, the
multiset union of `deconstruct_plant` over the plan's assets is a superset of
(indeed, equal to) the requested recipe multiset, and no asset of the plan has
the id of the fusion being evaluated (a Python fusion id is a non-empty
string; an empty `fusion_id_to_check` disables the exclusion filter). -/
theorem find_crafting_plan_sound (H : FusionHelper) (recipe : Multiset String)
    (assets : List Asset) (fid : String) (plan : List Asset)
    (hfid : fid ≠ "")
    (hp : (find_crafting_plan H recipe assets fid).1 = some plan) :
    recipe ≤ sumDec H plan ∧ ∀ a ∈ plan, a.id ≠ fid := by
  unfold find_crafting_plan at hp
  by_cases h0 : (crafting_pass H recipe assets fid).2 = 0
  · simp only [h0, if_pos, Option.some.injEq] at hp
    have hacc := greedy_acc H (sortDesc H (get_valid_crafting_components H
      (if fid ≠ "" then assets.filter (fun a => a.id ≠ fid) else assets))) recipe []
    rw [← crafting_pass_eq, h0, hp, add_zero, sumDec_nil, zero_add] at hacc
    refine ⟨le_of_eq hacc.symm, ?_⟩
    intro a ha
    rw [← hp] at ha
    have hm := greedy_mem H _ _ _ a (by rw [crafting_pass_eq] at ha; exact ha)
    rcases hm with h | h
    · exact absurd h (List.not_mem_nil a)
    · have h2 := List.mem_of_mem_filter ((mem_sortDesc H _ a).mp h)
      rw [if_pos hfid] at h2
      exact of_decide_eq_true (List.mem_filter.mp h2).2
  · simp [h0] at hp

/-- A tiny concrete catalog for the crafting-plan witnesses: one fusion
`AB = A + B` over base plants `A`, `B`. -/
def Hw : FusionHelper := ⟨[⟨"fAB", "AB", "tier2", some ["A", "B"]⟩], [], ["A", "B"]⟩

/-- Concrete garden assets for the crafting-plan witnesses. -/
def wA : Asset := ⟨"pA", "A", "base_plant", "garden", 0⟩

def wB : Asset := ⟨"pB", "B", "base_plant", "garden", 1⟩

/-- Recipe `{A, B}` as a multiset. -/
def rcpAB : Multiset String := (["A", "B"] : List String)

/-- Recipe `{A, B, C}` as a multiset. -/
def rcpABC : Multiset String := (["A", "B", "C"] : List String)

/-- C1 witness: the user owns base plants `A` and `B`, and the plan for recipe
`{A, B}` is found. -/
theorem find_crafting_plan_sound_witness :
    ("fAB" : String) ≠ "" ∧
    ((find_crafting_plan Hw rcpAB [wA, wB] "fAB").1 = some [wA, wB]) ∧
    (rcpAB ≤ sumDec Hw [wA, wB] ∧ ∀ a ∈ [wA, wB], a.id ≠ "fAB") :=
  ⟨by decide, by decide,
   find_crafting_plan_sound Hw rcpAB [wA, wB] "fAB" [wA, wB] (by decide) (by decide)⟩

/-- C2 — Plan completeness on shortfall.  If `find_crafting_plan` returns a
null plan, the returned still-needed multiset is exactly the recipe minus the
union of the deconstructions of the assets the greedy pass consumed: adding it
back to what the consumed assets provide satisfies the recipe exactly. -/
theorem find_crafting_plan_shortfall_exact (H : FusionHelper)
    (recipe : Multiset String) (assets : List Asset) (fid : String)
    (hn : (find_crafting_plan H recipe assets fid).1 = none) :
    sumDec H (crafting_pass H recipe assets fid).1 +
        (find_crafting_plan H recipe assets fid).2 = recipe ∧
      (find_crafting_plan H recipe assets fid).2 =
        recipe - sumDec H (crafting_pass H recipe assets fid).1 := by
  by_cases h0 : (crafting_pass H recipe assets fid).2 = 0
  · unfold find_crafting_plan at hn
    simp [h0] at hn
  · have h2 : (find_crafting_plan H recipe assets fid).2 =
        (crafting_pass H recipe assets fid).2 := by
      unfold find_crafting_plan
      simp [h0]
    have hacc := greedy_acc H (sortDesc H (get_valid_crafting_components H
      (if fid ≠ "" then assets.filter (fun a => a.id ≠ fid) else assets))) recipe []
    rw [← crafting_pass_eq, sumDec_nil, zero_add] at hacc
    rw [h2]
    set x := crafting_pass H recipe assets fid with hx
    refine ⟨hacc, ?_⟩
    rw [← hacc, add_tsub_cancel_left]

/-- C2 witness: the same catalog, but the user only owns `A` while the recipe
needs `{A, B, C}`: the plan is null and the shortfall is exactly `{B, C}`. -/
theorem find_crafting_plan_shortfall_exact_witness :
    ((find_crafting_plan Hw rcpABC [wA] "fAB").1 = none) ∧
    (sumDec Hw (crafting_pass Hw rcpABC [wA] "fAB").1 +
        (find_crafting_plan Hw rcpABC [wA] "fAB").2 = rcpABC ∧
      (find_crafting_plan Hw rcpABC [wA] "fAB").2 =
        rcpABC - sumDec Hw (crafting_pass Hw rcpABC [wA] "fAB").1) :=
  ⟨by decide, find_crafting_plan_shortfall_exact Hw rcpABC [wA] "fAB" (by decide)⟩

/-! Exact-match determinism of `find_fusion_match` -/

/-- Under pairwise-distinct recipe multisets, a catalog member with the sought
non-empty multiset is the one `find?` returns. -/
lemma find_fusion_aux (M : Multiset String) (f : Fusion) :
    ∀ l : List Fusion, l.Pairwise (fun g₁ g₂ => g₁.recipeMS ≠ g₂.recipeMS) →
      f ∈ l → f.recipeMS ≠ 0 → f.recipeMS = M →
      l.find? (fun g => decide (g.recipeMS ≠ 0 ∧ g.recipeMS = M)) = some f := by
  intro l
  induction l with
  | nil => intro _ hf; exact absurd hf (List.not_mem_nil f)
  | cons b bs ih =>
    intro hpw hf hne hM
    rcases List.pairwise_cons.mp hpw with ⟨hb, hbs⟩
    rcases List.mem_cons.mp hf with hfb | hfbs
    · subst hfb
      exact List.find?_cons_of_pos _
        (by simp only [decide_eq_true_eq]; exact ⟨hne, hM⟩)
    · have hbfalse : ¬(b.recipeMS ≠ 0 ∧ b.recipeMS = M) := by
        rintro ⟨_, hbM⟩
        exact hb f hfbs (by rw [hbM, ← hM])
      rw [List.find?_cons_of_neg _ (by simpa using hbfalse)]
      exact ih hbs hfbs hne hM

/-- C3 — Exact-match determinism.  For a catalog in which no two fusions share
an identical recipe multiset, `find_fusion_match` returns `some f` exactly when
`f` is the (unique) catalog fusion whose non-empty recipe multiset equals the
multiset of the input components; in particular it returns `none` when no such
fusion exists. -/
theorem find_fusion_match_unique (H : FusionHelper) (components : List String)
    (huniq : H.all_fusions.Pairwise (fun g₁ g₂ => g₁.recipeMS ≠ g₂.recipeMS))
    (f : Fusion) :
    find_fusion_match H components = some f ↔
      f ∈ H.all_fusions ∧ f.recipeMS ≠ 0 ∧
        f.recipeMS = (components : Multiset String) := by
  constructor
  · intro h
    have hmem := List.mem_of_find?_eq_some h
    have hpred := List.find?_some h
    have := of_decide_eq_true hpred
    exact ⟨hmem, this.1, this.2⟩
  · rintro ⟨hmem, hne, hM⟩
    exact find_fusion_aux _ f H.all_fusions huniq hmem hne hM

/-- A two-fusion catalog with distinct recipe multisets for the C3 witness. -/
def Hm : FusionHelper :=
  ⟨[⟨"fAB", "AB", "tier2", some ["A", "B"]⟩,
    ⟨"fAC", "AC", "tier2", some ["A", "C"]⟩], [], ["A", "B", "C"]⟩

/-- C3 witness: on input components `[C, A]` the second fusion (recipe
`{A, C}`) is returned. -/
theorem find_fusion_match_unique_witness :
    Hm.all_fusions.Pairwise (fun g₁ g₂ => g₁.recipeMS ≠ g₂.recipeMS) ∧
    (find_fusion_match Hm ["C", "A"] = some ⟨"fAC", "AC", "tier2", some ["A", "C"]⟩ ↔
      (⟨"fAC", "AC", "tier2", some ["A", "C"]⟩ : Fusion) ∈ Hm.all_fusions ∧
        (⟨"fAC", "AC", "tier2", some ["A", "C"]⟩ : Fusion).recipeMS ≠ 0 ∧
        (⟨"fAC", "AC", "tier2", some ["A", "C"]⟩ : Fusion).recipeMS =
          ((["C", "A"] : List String) : Multiset String)) :=
  ⟨by decide,
   find_fusion_match_unique Hm ["C", "A"] (by decide)
     ⟨"fAC", "AC", "tier2", some ["A", "C"]⟩⟩

/-! No false cycle errors under an acyclic recipe graph -/

/-- A last-wins fold that found a value found it in the list, satisfying the
selection predicate. -/
lemma foldl_pick_spec {α : Type} (p : α → Prop) [DecidablePred p] :
    ∀ (l : List α) (acc : Option α) (f : α),
      l.foldl (fun a g => if p g then some g else a) acc = some f →
      acc = some f ∨ (f ∈ l ∧ p f) := by
  intro l
  induction l with
  | nil => intro acc f h; exact Or.inl h
  | cons g gs ih =>
    intro acc f h
    rcases ih _ f h with hacc | ⟨hmem, hp⟩
    · by_cases hg : p g
      · simp only [hg, if_true] at hacc
        obtain rfl := Option.some.inj hacc
        exact Or.inr ⟨List.mem_cons_self _ _, hg⟩
      · simp only [hg, if_false] at hacc
        exact Or.inl hacc
    · exact Or.inr ⟨List.mem_cons_of_mem _ hmem, hp⟩

/-- A successful id lookup returns a catalog fusion carrying that id. -/
lemma fusionById_spec (H : FusionHelper) (i : String) (f : Fusion)
    (h : H.fusionById i = some f) : f ∈ H.all_fusions ∧ f.id = i := by
  rw [FusionHelper.fusionById] at h
  rcases foldl_pick_spec (fun g : Fusion => g.id = i) H.all_fusions none f h
    with h0 | h1
  · exact absurd h0 (by simp)
  · exact h1

/-- A successful name lookup returns a catalog fusion carrying that name. -/
lemma fusionByName_spec (H : FusionHelper) (n : String) (f : Fusion)
    (h : H.fusionByName n = some f) : f ∈ H.all_fusions ∧ f.name = n := by
  rw [FusionHelper.fusionByName] at h
  rcases foldl_pick_spec (fun g : Fusion => g.name = n) H.all_fusions none f h
    with h0 | h1
  · exact absurd h0 (by simp)
  · exact h1

/-- How a recipe component name resolves to a nested fusion inside the
deconstruction loop: base-plant names and material names shadow fusion names;
only what is left reaches the fusion-by-name lookup. -/
def resolveComponentFusion (H : FusionHelper) (c : String) : Option Fusion :=
  if c ∈ H.base_plant_names then none
  else if c ∈ H.materialNames then none
  else H.fusionByName c

/-- Acyclicity of the catalog's recipe reference graph, witnessed by a rank
function that strictly decreases along every resolved fusion → nested-fusion
edge (for a finite graph this is equivalent to having no directed cycle). -/
def Acyclic (H : FusionHelper) (rank : String → Nat) : Prop :=
  ∀ f ∈ H.all_fusions, ∀ c ∈ f.recipe.getD [], ∀ g ∈ H.all_fusions,
    resolveComponentFusion H c = some g → rank g.id < rank f.id

/-- Under an acyclic catalog, no call of the fuelled deconstruction whose path
ranks strictly above the current id ever reports an infinite recursion —
at any fuel. -/
lemma deconstructF_no_cycle (H : FusionHelper) (rank : String → Nat)
    (hacyc : Acyclic H rank) :
    ∀ (fuel : Nat) (r : PlantData) (path : List String),
      (∀ x ∈ path, rank r.id < rank x) →
      ∀ n, Err.infiniteRecursion n ∉ (deconstructF fuel H r path).2 := by
  intro fuel
  induction fuel with
  | zero => intro r path _ n; simp [deconstructF]
  | succ fuel ih =>
    intro r path hinv n
    have hnp : r.id ∉ path := fun hx => absurd (hinv _ hx) (lt_irrefl _)
    rw [deconstructF, if_neg hnp]
    by_cases h1 : r.type = "material" ∨ r.name ∈ H.materialNames
    · rw [if_pos h1]; simp
    · rw [if_neg h1]
      by_cases h2 : r.type = "base_plant"
      · rw [if_pos h2]; simp
      · rw [if_neg h2]
        split
        · simp
        · next f hf =>
          split
          · simp
          · next rcp hrec =>
            simp only
            intro hmem
            rw [List.mem_flatten] at hmem
            obtain ⟨es, hes, hns⟩ := hmem
            rw [List.mem_map] at hes
            obtain ⟨pr, hpr, hpr2⟩ := hes
            rw [List.mem_map] at hpr
            obtain ⟨c, hc, hcomp⟩ := hpr
            rw [deconstructComp] at hcomp
            by_cases hcb : c ∈ H.base_plant_names
            · rw [if_pos hcb] at hcomp
              rw [← hcomp] at hpr2
              rw [← hpr2] at hns
              exact absurd hns (List.not_mem_nil _)
            · rw [if_neg hcb] at hcomp
              by_cases hcm : c ∈ H.materialNames
              · rw [if_pos hcm] at hcomp
                rw [← hcomp] at hpr2
                rw [← hpr2] at hns
                exact absurd hns (List.not_mem_nil _)
              · rw [if_neg hcm] at hcomp
                cases hg : H.fusionByName c with
                | none =>
                  rw [hg] at hcomp
                  rw [← hcomp] at hpr2
                  rw [← hpr2] at hns
                  simp at hns
                | some g =>
                  rw [hg] at hcomp
                  obtain ⟨hfmem, hfid⟩ := fusionById_spec H r.id f hf
                  obtain ⟨hgmem, -⟩ := fusionByName_spec H c g hg
                  have hres : resolveComponentFusion H c = some g := by
                    rw [resolveComponentFusion, if_neg hcb, if_neg hcm]
                    exact hg
                  have hlt : rank g.id < rank r.id := by
                    have := hacyc f hfmem c (by rw [hrec]; exact hc) g hgmem hres
                    rwa [hfid] at this
                  have hinv2 : ∀ x ∈ r.id :: path,
                      rank (PlantData.mk g.id g.name g.type).id < rank x := by
                    intro x hx
                    rcases List.mem_cons.mp hx with hx | hx
                    · rw [hx]; exact hlt
                    · exact lt_trans hlt (hinv x hx)
                  have := ih ⟨g.id, g.name, g.type⟩ (r.id :: path) hinv2 n
                  rw [← hcomp] at hpr2
                  rw [← hpr2] at hns
                  exact this hns

/-- C4 — No false cycle error.  For any catalog whose recipe reference graph is
acyclic (rank-decreasing along edges), `deconstruct_plant` never reports the
"Infinite recursion detected" error for any asset: visited markers are scoped
to the current recursion path (each Python call receives `path.copy()`), so a
sibling branch never suppresses a cousin branch. -/
theorem deconstruct_plant_no_false_cycle (H : FusionHelper)
    (rank : String → Nat) (hacyc : Acyclic H rank) (r : PlantData) (n : String) :
    Err.infiniteRecursion n ∉ (deconstruct_plant H r).2 :=
  deconstructF_no_cycle H rank hacyc _ r [] (by simp) n

/-- The diamond catalog for the C4 witness: `D = B + C`, `B = X`, `C = X`,
`X = A`, with base plant `A` — the two independent sub-recipes `B` and `C`
share the nested component fusion `X`. -/
def Hd : FusionHelper :=
  ⟨[⟨"fD", "D", "tier3", some ["B", "C"]⟩,
    ⟨"fB", "B", "tier2", some ["X"]⟩,
    ⟨"fC", "C", "tier2", some ["X"]⟩,
    ⟨"fX", "X", "tier1", some ["A"]⟩], [], ["A"]⟩

/-- A rank function decreasing along the diamond's edges. -/
def rankD : String → Nat := fun i =>
  if i = "fD" then 3 else if i = "fB" then 2 else if i = "fC" then 2
  else if i = "fX" then 1 else 0

/-- C4 witness: the diamond catalog is acyclic, deconstructing `D` raises no
infinite-recursion error, and indeed both branches reach the shared nested
fusion: the result is exactly `{A, A}` with no errors at all. -/
theorem deconstruct_plant_no_false_cycle_witness :
    Acyclic Hd rankD ∧
    Err.infiniteRecursion "D" ∉ (deconstruct_plant Hd ⟨"fD", "D", "tier3"⟩).2 ∧
    deconstruct_plant Hd ⟨"fD", "D", "tier3"⟩ = (["A", "A"], []) :=
  ⟨by unfold Acyclic; decide,
   deconstruct_plant_no_false_cycle Hd rankD (by unfold Acyclic; decide) ⟨"fD", "D", "tier3"⟩ "D",
   by decide⟩

/-! Primitive deconstruction (C5) -/

/-- A catalog with the base plant `A`, no materials and no fusions, for the C5
counterexample. -/
def H5c : FusionHelper := ⟨[], [], ["A"]⟩

/-- C5 counterexample: an asset whose `name` (`"A"`) is a known base-plant name
but whose `type` is neither `material` nor `base_plant` is NOT treated as a
primitive: `deconstruct_plant` falls through to the fusion lookup and reports a
missing recipe instead of returning `{A}` — the top-level primitive test
matches base plants by `type`, not by name. -/
theorem deconstruct_plant_base_name_cex :
    "A" ∈ H5c.base_plant_names ∧
    (PlantData.mk "x" "A" "weird").name = "A" ∧
    deconstruct_plant H5c ⟨"x", "A", "weird"⟩ ≠ (["A"], []) ∧
    deconstruct_plant H5c ⟨"x", "A", "weird"⟩ =
      ([], [Err.recipeMissing "A"]) := by decide

/-- C5 (amended) — Primitive deconstruction rule.  For an asset reference
`{id, name, type}`, if its type is `material`, or its name matches a known
material name, or its type is `base_plant` (base-plant primitiveness is keyed
on the type tag, not the name), then `deconstruct_plant` returns exactly the
singleton `{name}` with no errors, never reaching the fusion lookup. -/
theorem deconstruct_plant_primitive (H : FusionHelper) (r : PlantData)
    (h : r.type = "material" ∨ r.name ∈ H.materialNames ∨ r.type = "base_plant") :
    deconstruct_plant H r = ([r.name], []) := by
  rw [deconstruct_plant, deconstructF, if_neg (List.not_mem_nil r.id)]
  by_cases h1 : r.type = "material" ∨ r.name ∈ H.materialNames
  · rw [if_pos h1]
  · rw [if_neg h1, if_pos (by tauto : r.type = "base_plant")]

/-- A catalog knowing the single material `Mat` for the C5 witness. -/
def H5w : FusionHelper := ⟨[], [("m1", "Mat")], []⟩

/-- C5 witness: an inventory-style asset of type `material` deconstructs to the
singleton of its name with no errors. -/
theorem deconstruct_plant_primitive_witness :
    ((PlantData.mk "m1" "Mat" "material").type = "material" ∨
      (PlantData.mk "m1" "Mat" "material").name ∈ H5w.materialNames ∨
      (PlantData.mk "m1" "Mat" "material").type = "base_plant") ∧
    deconstruct_plant H5w ⟨"m1", "Mat", "material"⟩ = (["Mat"], []) :=
  ⟨by decide, deconstruct_plant_primitive H5w ⟨"m1", "Mat", "material"⟩ (by decide)⟩

/-! Seedling growth (C6) -/

/-- The progress a slot displays: a seedling's progress, `0` otherwise. -/
def slotProgress : Slot → ℚ
  | Slot.seedling _ p _ => p
  | _ => 0

/-- C6 — Growth monotonicity and clamp.  Under the documented profile invariant
(every seedling progress is at most 100), a call of
`update_seedling_progress` with a non-negative increment never decreases any
slot's progress, and afterwards no slot's progress exceeds 100 no matter how
large the increment was. -/
theorem update_seedling_progress_monotone_clamped (garden : List Slot)
    (idx : Nat) (inc : ℚ) (hinc : 0 ≤ inc)
    (hinv : ∀ s ∈ garden, slotProgress s ≤ 100) :
    (∀ j : Nat, slotProgress (garden.getD j Slot.empty) ≤
        slotProgress ((update_seedling_progress garden idx inc).getD j Slot.empty)) ∧
    (∀ s ∈ update_seedling_progress garden idx inc, slotProgress s ≤ 100) := by
  rw [update_seedling_progress]
  by_cases h : idx < garden.length
  · rw [dif_pos h]
    split
    · next sid p ch hslot =>
      have hp100 : p ≤ 100 := by
        have := hinv _ (List.get_mem garden idx h)
        rwa [hslot] at this
      constructor
      · intro j
        by_cases hj : j = idx
        · subst hj
          rw [List.getD_eq_getElem?_getD, List.getD_eq_getElem?_getD,
            List.getElem?_set_eq_of_lt _ h, List.getElem?_eq_getElem h]
          rw [List.get_eq_getElem] at hslot
          rw [hslot]
          simp only [Option.getD_some, slotProgress]
          exact le_min (le_add_of_nonneg_right hinc) hp100
        · rw [List.getD_eq_getElem?_getD, List.getD_eq_getElem?_getD,
            List.getElem?_set_ne (fun hc => hj hc.symm)]
      · intro s hs
        rcases List.mem_or_eq_of_mem_set hs with h' | h'
        · exact hinv s h'
        · rw [h']
          exact min_le_right _ _
    · exact ⟨fun j => le_refl _, hinv⟩
  · rw [dif_neg h]
    exact ⟨fun j => le_refl _, hinv⟩

/-- C6 witness: a one-slot garden holding a 50%-seedling, ticked with a huge
increment: progress rises and is clamped at 100. -/
theorem update_seedling_progress_monotone_clamped_witness :
    (0 : ℚ) ≤ 1000 ∧
    (∀ s ∈ [Slot.seedling "s" 50 none], slotProgress s ≤ 100) ∧
    ((∀ j : Nat, slotProgress (([Slot.seedling "s" 50 none] : List Slot).getD j Slot.empty) ≤
        slotProgress ((update_seedling_progress [Slot.seedling "s" 50 none] 0 1000).getD j Slot.empty)) ∧
     (∀ s ∈ update_seedling_progress [Slot.seedling "s" 50 none] 0 1000,
        slotProgress s ≤ 100)) :=
  ⟨by norm_num, by decide,
   update_seedling_progress_monotone_clamped [Slot.seedling "s" 50 none] 0 1000
     (by norm_num) (by decide)⟩

/-! Trade drift atomicity (C7) -/

/-- C7 — Trade drift atomicity.  If any snapshotted recipient slot has drifted
(its occupant is gone or its id differs from the snapshot), and the earlier
sender checks pass (enough sun, enough free plots — an earlier check failing
also returns a failure with a null plan), `execute_plant_trade` fails with the
"plant has changed" message for the first drifted slot and a null change plan.
The embedding is a pure function of its inputs because the Python function
never writes to `sender_data` or `recipient_data` (its working garden is an
explicit copy), so no balance, garden or inventory of either party can be
mutated by the call; all effects live in the returned plan, which is null
here. -/
theorem execute_plant_trade_drift_no_mutation (trade : TradeData)
    (sender recipient : TUser) (unlocked : List Nat)
    (hbal : trade.money_sender_gives ≤ sender.balance)
    (hspace : trade.plants_info.length ≤ freeSlots sender unlocked)
    (s : PlantSnapshot)
    (hdrift : trade.plants_info.find? (fun x => drifted recipient x) = some s) :
    execute_plant_trade trade sender recipient unlocked =
      (false, TradeMsg.plantChanged (s.r_slot_index + 1), none) := by
  rw [execute_plant_trade, if_neg (not_lt.mpr hbal), if_neg (not_lt.mpr hspace),
    hdrift]

/-- The trade fixture for the C7 witness: one snapshot claims recipient plot 0
holds plant `Rose` (id `rose`), but the recipient has since replaced it. -/
def tradeW : TradeData := ⟨1, 2, 100, [⟨0, "rose", "Rose"⟩]⟩

def senderW : TUser := ⟨500, [Slot.empty, Slot.empty]⟩

def recipientW : TUser := ⟨0, [Slot.plant "daisy" "Daisy" "tier1"]⟩

/-- C7 witness: the sender has enough sun and space, plot 0 drifted from `rose`
to `daisy`, and the trade fails with "plant has changed" and a null plan. -/
theorem execute_plant_trade_drift_no_mutation_witness :
    tradeW.money_sender_gives ≤ senderW.balance ∧
    tradeW.plants_info.length ≤ freeSlots senderW [1, 2] ∧
    (tradeW.plants_info.find? (fun x => drifted recipientW x) =
      some ⟨0, "rose", "Rose"⟩) ∧
    execute_plant_trade tradeW senderW recipientW [1, 2] =
      (false, TradeMsg.plantChanged 1, none) :=
  ⟨by decide, by decide, by decide,
   execute_plant_trade_drift_no_mutation tradeW senderW recipientW [1, 2]
     (by decide) (by decide) ⟨0, "rose", "Rose"⟩ (by decide)⟩

/-! Behaviour of plant_seedling (C8) -/

/-- C8 counterexample: `plant_seedling` on an occupied, in-range slot silently
replaces the occupant with a fresh seedling; it performs no emptiness check
and returns no failure value (the Python method always returns `None`, which
is why the embedding returns only the new garden). -/
theorem plant_seedling_overwrites_cex :
    ([Slot.plant "p1" "Rose" "tier1"] : List Slot).getD 0 Slot.empty =
      Slot.plant "p1" "Rose" "tier1" ∧
    plant_seedling [Slot.plant "p1" "Rose" "tier1"] 0 "Seedling" 7 =
      [Slot.seedling "Seedling" 0 (some 7)] := by decide

/-- C8 (amended) — `plant_seedling` validates only that the index is in range:
an in-range call unconditionally overwrites the slot (occupied or not) with a
fresh zero-progress seedling and leaves every other slot unchanged, while an
out-of-range call changes nothing; in both cases no success or failure value
is produced (emptiness validation is the caller's responsibility). -/
theorem plant_seedling_behavior (garden : List Slot) (idx : Nat)
    (sid : String) (ch : Int) :
    (idx < garden.length →
      (plant_seedling garden idx sid ch).getD idx Slot.empty =
          Slot.seedling sid 0 (some ch) ∧
        ∀ j : Nat, j ≠ idx →
          (plant_seedling garden idx sid ch).getD j Slot.empty =
            garden.getD j Slot.empty) ∧
    (garden.length ≤ idx → plant_seedling garden idx sid ch = garden) := by
  constructor
  · intro h
    rw [plant_seedling, if_pos h]
    constructor
    · rw [List.getD_eq_getElem?_getD, List.getElem?_set_eq_of_lt _ h]
      rfl
    · intro j hj
      rw [List.getD_eq_getElem?_getD, List.getD_eq_getElem?_getD,
        List.getElem?_set_ne (fun hc => hj hc.symm)]
  · intro h
    rw [plant_seedling, if_neg (not_lt.mpr h)]

/-- C8 (amended) witness: planting into occupied slot 0 of a two-slot garden
replaces slot 0 and leaves slot 1 intact. -/
theorem plant_seedling_behavior_witness :
    (0 : Nat) < ([Slot.plant "p1" "Rose" "tier1", Slot.plant "p2" "Lily" "tier1"] :
        List Slot).length ∧
    (plant_seedling [Slot.plant "p1" "Rose" "tier1", Slot.plant "p2" "Lily" "tier1"]
          0 "s" 3).getD 0 Slot.empty = Slot.seedling "s" 0 (some 3) ∧
    ∀ j : Nat, j ≠ 0 →
      (plant_seedling [Slot.plant "p1" "Rose" "tier1", Slot.plant "p2" "Lily" "tier1"]
          0 "s" 3).getD j Slot.empty =
        ([Slot.plant "p1" "Rose" "tier1", Slot.plant "p2" "Lily" "tier1"] :
          List Slot).getD j Slot.empty :=
  ⟨by decide,
   (plant_seedling_behavior
     [Slot.plant "p1" "Rose" "tier1", Slot.plant "p2" "Lily" "tier1"] 0 "s" 3).1
     (by decide)⟩

/-! Sales independence (C9) -/

lemma processSlots_cons (prices : List (String × Int)) (garden : List Slot)
    (mastery : Nat) (s : Int) (rest : List Int) :
    processSlots prices garden mastery (s :: rest) =
      (slotOutcome prices garden mastery s).combine
        (processSlots prices garden mastery rest) := rfl

/-- On an already duplicate-free request the set-deduplication is the
identity. -/
lemma dedupFirst_eq_self :
    ∀ (l : List Int) (seen : List Int), l.Nodup → (∀ x ∈ l, x ∉ seen) →
      dedupFirst seen l = l := by
  intro l
  induction l with
  | nil => intro seen _ _; rfl
  | cons x xs ih =>
    intro seen hnd hdis
    rw [dedupFirst, if_neg (hdis x (List.mem_cons_self x xs))]
    rw [ih (x :: seen) (List.Nodup.of_cons hnd)]
    intro y hy
    rw [List.mem_cons]
    rintro (rfl | hseen)
    · exact (List.nodup_cons.mp hnd).1 hy
    · exact hdis y (List.mem_cons_of_mem _ hy) hseen

/-- The invalid-slot classification of `process_sales`: out of the 1..12 range,
or an empty or seedling-occupied plot, together with the per-slot error message
it produces. -/
def slotInvalidErr (garden : List Slot) (s : Int) : Option SaleErr :=
  if ¬(0 ≤ s - 1 ∧ s - 1 < 12) then some (SaleErr.invalidSlot s)
  else
    match garden.getD (s - 1).toNat Slot.empty with
    | Slot.empty => some (SaleErr.emptyOrSeedling s)
    | Slot.seedling _ _ _ => some (SaleErr.emptyOrSeedling s)
    | Slot.plant _ _ _ => none

/-- An invalid slot contributes exactly its single error message and nothing
else. -/
lemma slotOutcome_invalid (prices : List (String × Int)) (garden : List Slot)
    (mastery : Nat) (s : Int) (e : SaleErr)
    (h : slotInvalidErr garden s = some e) :
    slotOutcome prices garden mastery s = SalesResult.err e := by
  rw [slotInvalidErr] at h
  rw [slotOutcome]
  by_cases hr : ¬(0 ≤ s - 1 ∧ s - 1 < 12)
  · rw [if_pos hr] at h ⊢
    obtain rfl := Option.some.inj h
    rfl
  · rw [if_neg hr] at h ⊢
    split
    · next heq =>
      rw [heq] at h
      obtain rfl := Option.some.inj h
      rfl
    · next sid p ch heq =>
      rw [heq] at h
      obtain rfl := Option.some.inj h
      rfl
    · next pid pname pty heq =>
      rw [heq] at h
      exact Option.noConfusion h

/-- Removing one invalid slot from the request changes only the error list. -/
lemma processSlots_erase (prices : List (String × Int)) (garden : List Slot)
    (mastery : Nat) (e : SaleErr) (s : Int)
    (hout : slotOutcome prices garden mastery s = SalesResult.err e) :
    ∀ slots : List Int, s ∈ slots →
      (processSlots prices garden mastery slots).total_earnings =
        (processSlots prices garden mastery (slots.erase s)).total_earnings ∧
      (processSlots prices garden mastery slots).sold_plants_details =
        (processSlots prices garden mastery (slots.erase s)).sold_plants_details ∧
      (processSlots prices garden mastery slots).mastery_gained =
        (processSlots prices garden mastery (slots.erase s)).mastery_gained ∧
      (processSlots prices garden mastery slots).time_mastery_gained =
        (processSlots prices garden mastery (slots.erase s)).time_mastery_gained ∧
      (processSlots prices garden mastery slots).plots_to_clear =
        (processSlots prices garden mastery (slots.erase s)).plots_to_clear ∧
      (processSlots prices garden mastery slots).error_messages.Perm
        (e :: (processSlots prices garden mastery (slots.erase s)).error_messages) := by
  intro slots
  induction slots with
  | nil => intro hs; exact absurd hs (List.not_mem_nil s)
  | cons a rest ih =>
    intro hs
    by_cases ha : a = s
    · subst ha
      rw [List.erase_cons_head, processSlots_cons, hout]
      refine ⟨by simp [SalesResult.combine, SalesResult.err],
        by simp [SalesResult.combine, SalesResult.err],
        by simp [SalesResult.combine, SalesResult.err],
        by simp [SalesResult.combine, SalesResult.err],
        by simp [SalesResult.combine, SalesResult.err], ?_⟩
      simp [SalesResult.combine, SalesResult.err]
    · have hs2 : s ∈ rest := by
        rcases List.mem_cons.mp hs with h | h
        · exact absurd h.symm ha
        · exact h
      have herase : (a :: rest).erase s = a :: rest.erase s :=
        List.erase_cons_tail (by simp [ha])
      obtain ⟨ih1, ih2, ih3, ih4, ih5, ih6⟩ := ih hs2
      rw [herase, processSlots_cons, processSlots_cons]
      refine ⟨by simp [SalesResult.combine, ih1],
        by simp [SalesResult.combine, ih2],
        by simp [SalesResult.combine, ih3],
        by simp [SalesResult.combine, ih4],
        by simp [SalesResult.combine, ih5], ?_⟩
      simp only [SalesResult.combine]
      exact ((ih6.append_left _).trans List.perm_middle).symm.symm

/-- C9 — Sales are side-effect-free and per-slot independent.  `process_sales`
is a pure function of the profile's garden and mastery (the Python function
never writes to `user_data`; clearing is left to the caller via
`plots_to_clear`), and an invalid slot (out of the 1..12 range, empty, or
seedling-occupied) contributes exactly one per-slot error message: removing it
from the request leaves earnings, sale details, mastery gains and plots to
clear unchanged, so it never aborts the processing of the other slots.
`garden.length = 12` is the profile shape invariant under which the Python
list indexing performed by the function cannot raise. -/
theorem process_sales_slot_independent (prices : List (String × Int))
    (garden : List Slot) (mastery : Nat) (slots : List Int)
    (hlen : garden.length = 12) (hnd : slots.Nodup)
    (s : Int) (hs : s ∈ slots) (e : SaleErr)
    (he : slotInvalidErr garden s = some e) :
    (process_sales prices garden mastery slots).total_earnings =
      (process_sales prices garden mastery (slots.erase s)).total_earnings ∧
    (process_sales prices garden mastery slots).sold_plants_details =
      (process_sales prices garden mastery (slots.erase s)).sold_plants_details ∧
    (process_sales prices garden mastery slots).mastery_gained =
      (process_sales prices garden mastery (slots.erase s)).mastery_gained ∧
    (process_sales prices garden mastery slots).time_mastery_gained =
      (process_sales prices garden mastery (slots.erase s)).time_mastery_gained ∧
    (process_sales prices garden mastery slots).plots_to_clear =
      (process_sales prices garden mastery (slots.erase s)).plots_to_clear ∧
    (process_sales prices garden mastery slots).error_messages.Perm
      (e :: (process_sales prices garden mastery (slots.erase s)).error_messages) := by
  have h1 : dedupFirst [] slots = slots :=
    dedupFirst_eq_self slots [] hnd (by simp)
  have h2 : dedupFirst [] (slots.erase s) = slots.erase s :=
    dedupFirst_eq_self (slots.erase s) [] (List.Nodup.erase s hnd) (by simp)
  rw [process_sales, process_sales, h1, h2]
  exact processSlots_erase prices garden mastery e s
    (slotOutcome_invalid prices garden mastery s e he) slots hs

/-- A 12-slot garden whose plot 1 holds a sellable plant; every other plot is
empty. -/
def gardenW : List Slot :=
  [Slot.plant "p1" "Rose" "tier1", Slot.empty, Slot.empty, Slot.empty,
   Slot.empty, Slot.empty, Slot.empty, Slot.empty, Slot.empty, Slot.empty,
   Slot.empty, Slot.empty]

/-- C9 witness: requesting plots `[1, 2]` where plot 2 is empty — dropping the
invalid plot 2 changes nothing but the error list, which loses exactly the
plot-2 message. -/
theorem process_sales_slot_independent_witness :
    gardenW.length = 12 ∧ ([1, 2] : List Int).Nodup ∧ (2 : Int) ∈ [(1 : Int), 2] ∧
    slotInvalidErr gardenW 2 = some (SaleErr.emptyOrSeedling 2) ∧
    ((process_sales [("tier1", 10)] gardenW 0 [1, 2]).total_earnings =
      (process_sales [("tier1", 10)] gardenW 0 (([1, 2] : List Int).erase 2)).total_earnings ∧
     (process_sales [("tier1", 10)] gardenW 0 [1, 2]).sold_plants_details =
      (process_sales [("tier1", 10)] gardenW 0 (([1, 2] : List Int).erase 2)).sold_plants_details ∧
     (process_sales [("tier1", 10)] gardenW 0 [1, 2]).mastery_gained =
      (process_sales [("tier1", 10)] gardenW 0 (([1, 2] : List Int).erase 2)).mastery_gained ∧
     (process_sales [("tier1", 10)] gardenW 0 [1, 2]).time_mastery_gained =
      (process_sales [("tier1", 10)] gardenW 0 (([1, 2] : List Int).erase 2)).time_mastery_gained ∧
     (process_sales [("tier1", 10)] gardenW 0 [1, 2]).plots_to_clear =
      (process_sales [("tier1", 10)] gardenW 0 (([1, 2] : List Int).erase 2)).plots_to_clear ∧
     (process_sales [("tier1", 10)] gardenW 0 [1, 2]).error_messages.Perm
      (SaleErr.emptyOrSeedling 2 ::
        (process_sales [("tier1", 10)] gardenW 0
          (([1, 2] : List Int).erase 2)).error_messages)) :=
  ⟨by decide, by decide, by decide, by decide,
   process_sales_slot_independent [("tier1", 10)] gardenW 0 [1, 2]
     (by decide) (by decide) 2 (by decide) (SaleErr.emptyOrSeedling 2) (by decide)⟩

/-! One pseudo-asset per inventory material (C10) -/

/-- Assets derived from inventory keys other than `mid` never count. -/
lemma inventoryAssets_countP_zero (H : FusionHelper) (mid : String) :
    ∀ inv : List (String × Nat), mid ∉ inv.map Prod.fst →
      (inv.filterMap (fun kv =>
        match H.materialName kv.1 with
        | some n => some (⟨kv.1, n, "material", "inventory", -1⟩ : Asset)
        | none => none)).countP
        (fun a => decide (a.source = "inventory" ∧ a.id = mid)) = 0 := by
  intro inv
  induction inv with
  | nil => intro _; rfl
  | cons kv rest ih =>
    intro hnm
    rw [List.map_cons] at hnm
    have hk : kv.1 ≠ mid := fun hc => hnm (hc ▸ List.mem_cons_self _ _)
    have hrest : mid ∉ rest.map Prod.fst :=
      fun hc => hnm (List.mem_cons_of_mem _ hc)
    rw [List.filterMap_cons]
    cases hm : H.materialName kv.1 with
    | none => exact ih hrest
    | some n =>
      rw [List.countP_cons_of_neg _ _ (by simp [hk])]
      exact ih hrest

/-- An inventory with duplicate-free keys containing the known material `mid`
yields exactly one matching pseudo-asset. -/
lemma inventoryAssets_countP_one (H : FusionHelper) (mid : String)
    (mname : String) (hmat : H.materialName mid = some mname) :
    ∀ inv : List (String × Nat), (inv.map Prod.fst).Nodup →
      (∃ q, (mid, q) ∈ inv) →
      (inv.filterMap (fun kv =>
        match H.materialName kv.1 with
        | some n => some (⟨kv.1, n, "material", "inventory", -1⟩ : Asset)
        | none => none)).countP
        (fun a => decide (a.source = "inventory" ∧ a.id = mid)) = 1 := by
  intro inv
  induction inv with
  | nil => rintro _ ⟨q, hq⟩; exact absurd hq (List.not_mem_nil _)
  | cons kv rest ih =>
    rintro hnd ⟨q, hq⟩
    rw [List.map_cons, List.nodup_cons] at hnd
    rcases List.mem_cons.mp hq with heq | hrest
    · obtain rfl : kv = (mid, q) := heq.symm
      rw [List.filterMap_cons]
      simp only at hmat ⊢
      rw [hmat, List.countP_cons_of_pos _ _ (by simp)]
      rw [inventoryAssets_countP_zero H mid rest hnd.1]
    · have hk : kv.1 ≠ mid := by
        intro hc
        exact hnd.1 (hc ▸ List.mem_map_of_mem Prod.fst hrest)
      rw [List.filterMap_cons]
      cases hm : H.materialName kv.1 with
      | none => exact ih hnd.2 ⟨q, hrest⟩
      | some n =>
        rw [List.countP_cons_of_neg _ _ (by simp [hk])]
        exact ih hnd.2 ⟨q, hrest⟩

/-- C10 — One pseudo-asset per material id.  For a profile whose inventory dict
maps the known material id `mid` to any quantity `q ≥ 1`,
`get_user_whole_assets_with_source` emits exactly one inventory pseudo-asset
with that id — quantities are never expanded, so `find_crafting_plan` can
consume at most one unit of each distinct inventory material per plan.
(The dict's key list is duplicate-free; the quantity is not even read.) -/
theorem get_user_whole_assets_inventory_unique (H : FusionHelper)
    (garden storage : List Slot) (inventory : List (String × Nat))
    (mid : String) (q : Nat)
    (hnd : (inventory.map Prod.fst).Nodup) (hmem : (mid, q) ∈ inventory)
    (hq : 1 ≤ q) (mname : String) (hmat : H.materialName mid = some mname) :
    (get_user_whole_assets_with_source H garden storage inventory).countP
      (fun a => decide (a.source = "inventory" ∧ a.id = mid)) = 1 := by
  rw [get_user_whole_assets_with_source, List.countP_append, List.countP_append]
  have hg : (garden.enum.filterMap (fun p =>
      match p.2 with
      | Slot.plant pid pname pty =>
        some (⟨pid, pname, pty, "garden", (p.1 : Int)⟩ : Asset)
      | _ => none)).countP
      (fun a => decide (a.source = "inventory" ∧ a.id = mid)) = 0 := by
    rw [List.countP_eq_zero]
    intro a ha
    rw [List.mem_filterMap] at ha
    obtain ⟨⟨i, slot⟩, _, hfa⟩ := ha
    cases slot with
    | empty => exact Option.noConfusion hfa
    | seedling sid p ch => exact Option.noConfusion hfa
    | plant pid pname pty =>
      obtain rfl := Option.some.inj hfa
      simp
  have hst : (storage.enum.filterMap (fun p =>
      match p.2 with
      | Slot.plant pid pname pty =>
        some (⟨pid, pname, pty, "storage", (p.1 : Int)⟩ : Asset)
      | Slot.seedling sid _ _ =>
        some (⟨sid, sid, "seedling", "storage", (p.1 : Int)⟩ : Asset)
      | Slot.empty => none)).countP
      (fun a => decide (a.source = "inventory" ∧ a.id = mid)) = 0 := by
    rw [List.countP_eq_zero]
    intro a ha
    rw [List.mem_filterMap] at ha
    obtain ⟨⟨i, slot⟩, _, hfa⟩ := ha
    cases slot with
    | empty => exact Option.noConfusion hfa
    | seedling sid p ch =>
      obtain rfl := Option.some.inj hfa
      simp
    | plant pid pname pty =>
      obtain rfl := Option.some.inj hfa
      simp
  rw [hg, hst,
    inventoryAssets_countP_one H mid mname hmat inventory hnd ⟨q, hmem⟩]

/-- The catalog and profile for the C10 witness: material `m1` with display
name `Mat`, owned in quantity 5, next to an unrelated garden plant. -/
def H10 : FusionHelper := ⟨[], [("m1", "Mat")], []⟩

/-- C10 witness: quantity 5 of material `m1` still yields exactly one
inventory pseudo-asset. -/
theorem get_user_whole_assets_inventory_unique_witness :
    ((([("m1", 5)] : List (String × Nat)).map Prod.fst).Nodup ∧
      ("m1", 5) ∈ ([("m1", 5)] : List (String × Nat)) ∧ 1 ≤ 5 ∧
      H10.materialName "m1" = some "Mat") ∧
    (get_user_whole_assets_with_source H10 [Slot.plant "p1" "Rose" "tier1"]
        [] [("m1", 5)]).countP
      (fun a => decide (a.source = "inventory" ∧ a.id = "m1")) = 1 :=
  ⟨⟨by decide, by decide, by decide, by decide⟩,
   get_user_whole_assets_inventory_unique H10 [Slot.plant "p1" "Rose" "tier1"]
     [] [("m1", 5)] "m1" 5 (by decide) (by decide) (by decide) "Mat" (by decide)⟩

/-! The fuel of `deconstruct_plant` is semantically invisible -/

/-- Extending the visited path by a listed, not-yet-visited id strictly shrinks
the set of unvisited ids. -/
lemma filter_sub_lt (i : String) :
    ∀ (l : List String) (path : List String), i ∈ l → i ∉ path →
      (l.filter (fun x => decide (x ∉ i :: path))).length <
        (l.filter (fun x => decide (x ∉ path))).length := by
  intro l
  induction l with
  | nil => intro path h _; exact absurd h (List.not_mem_nil i)
  | cons a as ih =>
    intro path hmem hnp
    rw [List.filter_cons, List.filter_cons]
    by_cases hai : a = i
    · subst hai
      rw [decide_eq_false (fun h => h (List.mem_cons_self a path)),
        decide_eq_true hnp, if_neg Bool.false_ne_true, if_pos rfl]
      refine Nat.lt_succ_of_le ?_
      apply List.Sublist.length_le
      apply List.monotone_filter_right
      intro x hx
      have hx2 := of_decide_eq_true hx
      exact decide_eq_true (fun h => hx2 (List.mem_cons_of_mem _ h))
    · have hmem2 : i ∈ as := by
        rcases List.mem_cons.mp hmem with h | h
        · exact absurd h.symm hai
        · exact h
      have hsame : decide (a ∉ i :: path) = decide (a ∉ path) := by
        by_cases hap : a ∈ path
        · rw [decide_eq_false (fun h => h (List.mem_cons_of_mem _ hap)),
            decide_eq_false (fun h => h hap)]
        · have h1 : a ∉ i :: path := by
            rw [List.mem_cons]
            rintro (h | h)
            · exact hai h
            · exact hap h
          rw [decide_eq_true h1, decide_eq_true hap]
      rw [hsame]
      by_cases hd : a ∈ path
      · rw [decide_eq_false (fun h => h hd), if_neg Bool.false_ne_true]
        exact ih path hmem2 hnp
      · rw [decide_eq_true hd, if_pos rfl]
        exact Nat.succ_lt_succ (ih path hmem2 hnp)

/-- Recursing into a found fusion strictly decreases the measure. -/
lemma newIds_cons_lt (H : FusionHelper) (i : String) (path : List String)
    (hi : i ∈ H.fusionIds) (hp : i ∉ path) :
    newIds H (i :: path) < newIds H path :=
  filter_sub_lt i H.fusionIds path hi hp

/-- A found fusion's id is a catalog fusion id. -/
lemma fusionById_mem_fusionIds (H : FusionHelper) (i : String) (f : Fusion)
    (hf : H.fusionById i = some f) : i ∈ H.fusionIds := by
  obtain ⟨hm, hid⟩ := fusionById_spec H i f hf
  rw [← hid]
  exact List.mem_map_of_mem Fusion.id hm

/-- Any two fuels strictly above the unvisited-id measure produce identical
results: the cycle guard bounds the recursion depth, so the concrete fuel
`all_fusions.length + 1` used by `deconstruct_plant` is semantically
invisible. -/
lemma deconstructF_fuel_irrel (H : FusionHelper) :
    ∀ (n m : Nat) (r : PlantData) (path : List String),
      newIds H path < n → newIds H path < m →
      deconstructF n H r path = deconstructF m H r path := by
  intro n
  induction n with
  | zero => intro m r path hn; exact absurd hn (Nat.not_lt_zero _)
  | succ n ih =>
    intro m r path hn hm
    cases m with
    | zero => exact absurd hm (Nat.not_lt_zero _)
    | succ m =>
      rw [deconstructF, deconstructF]
      split
      · rfl
      · next h0 =>
        split
        · rfl
        · split
          · rfl
          · split
            · rfl
            · next f hf =>
              split
              · rfl
              · next rcp hrec =>
                simp only
                have hi := fusionById_mem_fusionIds H r.id f hf
                have hlt := newIds_cons_lt H r.id path hi h0
                have hfun :
                    (fun g : Fusion =>
                      deconstructF n H ⟨g.id, g.name, g.type⟩ (r.id :: path)) =
                    (fun g : Fusion =>
                      deconstructF m H ⟨g.id, g.name, g.type⟩ (r.id :: path)) :=
                  funext fun g => ih m ⟨g.id, g.name, g.type⟩ (r.id :: path)
                    (lt_of_lt_of_le hlt (Nat.lt_succ_iff.mp hn))
                    (lt_of_lt_of_le hlt (Nat.lt_succ_iff.mp hm))
                rw [hfun]

/-- The measure never exceeds the catalog size, so the sufficiency bound holds
for the fuel chosen by `deconstruct_plant` on the empty path. -/
lemma newIds_lt_fuel (H : FusionHelper) (path : List String) :
    newIds H path < H.all_fusions.length + 1 := by
  have h1 : newIds H path ≤ H.fusionIds.length := List.length_filter_le _ _
  have h2 : H.fusionIds.length = H.all_fusions.length := List.length_map _ _
  omega

/-- The `outOfFuel` artifact never appears in the errors of a call whose fuel
exceeds the measure — in particular never in `deconstruct_plant`. -/
lemma deconstructF_no_outOfFuel (H : FusionHelper) :
    ∀ (n : Nat) (r : PlantData) (path : List String), newIds H path < n →
      Err.outOfFuel ∉ (deconstructF n H r path).2 := by
  intro n
  induction n with
  | zero => intro r path hn; exact absurd hn (Nat.not_lt_zero _)
  | succ n ih =>
    intro r path hn
    rw [deconstructF]
    split
    · simp
    · next h0 =>
      split
      · simp
      · split
        · simp
        · split
          · simp
          · next f hf =>
            split
            · simp
            · next rcp hrec =>
              simp only
              intro hmem
              rw [List.mem_flatten] at hmem
              obtain ⟨es, hes, hns⟩ := hmem
              rw [List.mem_map] at hes
              obtain ⟨pr, hpr, hpr2⟩ := hes
              rw [List.mem_map] at hpr
              obtain ⟨c, hc, hcomp⟩ := hpr
              rw [deconstructComp] at hcomp
              have hi := fusionById_mem_fusionIds H r.id f hf
              have hlt := newIds_cons_lt H r.id path hi h0
              by_cases hcb : c ∈ H.base_plant_names
              · rw [if_pos hcb] at hcomp
                rw [← hcomp] at hpr2
                rw [← hpr2] at hns
                exact absurd hns (List.not_mem_nil _)
              · rw [if_neg hcb] at hcomp
                by_cases hcm : c ∈ H.materialNames
                · rw [if_pos hcm] at hcomp
                  rw [← hcomp] at hpr2
                  rw [← hpr2] at hns
                  exact absurd hns (List.not_mem_nil _)
                · rw [if_neg hcm] at hcomp
                  cases hg : H.fusionByName c with
                  | none =>
                    rw [hg] at hcomp
                    rw [← hcomp] at hpr2
                    rw [← hpr2] at hns
                    simp at hns
                  | some g =>
                    rw [hg] at hcomp
                    have := ih ⟨g.id, g.name, g.type⟩ (r.id :: path)
                      (lt_of_lt_of_le hlt (Nat.lt_succ_iff.mp hn))
                    rw [← hcomp] at hpr2
                    rw [← hpr2] at hns
                    exact this hns

/-- Consequently `deconstruct_plant` itself never reports the fuel artifact. -/
lemma deconstruct_plant_no_outOfFuel (H : FusionHelper) (r : PlantData) :
    Err.outOfFuel ∉ (deconstruct_plant H r).2 :=
  deconstructF_no_outOfFuel H _ r [] (newIds_lt_fuel H [])

end ARG
